import Mathlib

/-!
Verification of the invoice-extraction pipeline of `src/app.py`
(the `InvoiceIntel` Streamlit application).

The embedding models, from the source:
  * the text cleanup performed on the model reply
    (`response.text.replace("\x60\x60\x60json", "").replace("\x60\x60\x60", "").strip()`),
  * Python's `json.loads` on the cleaned text (JSON numbers are modelled as
    integers; floating-point literals are outside the scope of the claims),
  * the per-file loop of section 4 of `app.py`: truthiness check on the parsed
    value, attachment of `source_file`, append, and progress reporting,
  * the analytics (`df.mode()[0]` for the top category) and the Excel export
    (column order, sheet name).

Text is modelled as `List Char`; the remote model call is modelled as an
`Except Unit (List Char)` (an exception, or the reply text), since any
exception inside `extract_invoice_data`'s `try` block yields `None`.
-/

namespace InvoiceIntel

/-! ## Python string primitives -/

/-- The backtick character (avoids a literal backtick in code). -/
def btick : Char := Char.ofNat 96

/-- The fence marker `\x60\x60\x60` as a character list. -/
def fencePat : List Char := [btick, btick, btick]

/-- The fence-plus-language-tag marker `\x60\x60\x60json` as a character list. -/
def fenceJsonPat : List Char := fencePat ++ ['j', 's', 'o', 'n']

/-- Python `str.replace` scanner: `replA pat rep s k` scans `s`, with `k`
characters still to be skipped because they belong to an already-replaced
occurrence of `pat`.  Replacements are non-overlapping, left to right,
exactly as in CPython. -/
def replA (pat rep : List Char) : List Char → Nat → List Char
  | [], _ => []
  | _ :: rest, k + 1 => replA pat rep rest k
  | c :: rest, 0 =>
    if pat ≠ [] ∧ pat.isPrefixOf (c :: rest) then
      rep ++ replA pat rep rest (pat.length - 1)
    else
      c :: replA pat rep rest 0

/-- Python `s.replace(pat, rep)` (for a non-empty `pat`). -/
def replaceAll (pat rep s : List Char) : List Char := replA pat rep s 0

/-- Python whitespace for `str.strip()`. -/
def isPyWs (c : Char) : Bool :=
  c = ' ' || c = '\t' || c = '\n' || c = '\r' || c = Char.ofNat 11 || c = Char.ofNat 12

/-- Python `str.strip()`: drop leading and trailing whitespace. -/
def pyStrip (s : List Char) : List Char :=
  ((s.dropWhile isPyWs).reverse.dropWhile isPyWs).reverse

/-- The cleanup applied to the model reply in `extract_invoice_data`:
`response.text.replace("\x60\x60\x60json", "").replace("\x60\x60\x60", "").strip()`. -/
def cleanText (s : List Char) : List Char :=
  pyStrip (replaceAll fencePat [] (replaceAll fenceJsonPat [] s))

/-- Wrapping a text in markdown code-fence markers with a language tag,
as an LLM reply often is. -/
def wrapFence (t : List Char) : List Char :=
  fenceJsonPat ++ '\n' :: (t ++ '\n' :: fencePat)

/-! ## JSON values and `json.loads` -/

/-- JSON values as produced by Python's `json.loads`.  Numbers are modelled as
integers (the claims under scrutiny involve no fractional literals). -/
inductive Json where
  | null : Json
  | bool (b : Bool) : Json
  | num (n : Int) : Json
  | str (s : String) : Json
  | arr (xs : List Json) : Json
  | obj (fields : List (String × Json)) : Json

/-- Python `dict` assignment `d[k] = v` on an association list: an existing
key keeps its position and gets the new value; a new key is appended at the
end.  This is exactly CPython's insertion-order semantics. -/
def dictInsert (fs : List (String × Json)) (k : String) (v : Json) :
    List (String × Json) :=
  match fs with
  | [] => [(k, v)]
  | (k', v') :: rest =>
    if k' = k then (k', v) :: rest else (k', v') :: dictInsert rest k v

/-- Lookup of a key in a parsed JSON object (`d[k]` / `d.get(k)`). -/
def lookupJ (fs : List (String × Json)) (k : String) : Option Json :=
  match fs with
  | [] => none
  | (k', v) :: rest => if k' = k then some v else lookupJ rest k

/-- Python truthiness of a `json.loads` result: `None`, `False`, `0`, `""`,
`[]` and the empty dict are falsy; everything else is truthy. -/
def truthy : Json → Bool
  | .null => false
  | .bool b => b
  | .num n => n ≠ 0
  | .str s => s ≠ ""
  | .arr xs => !xs.isEmpty
  | .obj fs => !fs.isEmpty

/-- Whether a JSON value is an object (a Python `dict`). -/
def isObj : Json → Bool
  | .obj _ => true
  | _ => false

/-- JSON structural whitespace (RFC 8259 / CPython `json`). -/
def isJsonWs (c : Char) : Bool :=
  c = ' ' || c = '\t' || c = '\n' || c = '\r'

/-- Skip JSON structural whitespace. -/
def skipWs (s : List Char) : List Char := s.dropWhile isJsonWs

/-- Decode one JSON string escape character. -/
def escChar (c : Char) : Option Char :=
  if c = '"' then some '"'
  else if c = '\\' then some '\\'
  else if c = '/' then some '/'
  else if c = 'n' then some '\n'
  else if c = 't' then some '\t'
  else if c = 'r' then some '\r'
  else if c = 'b' then some (Char.ofNat 8)
  else if c = 'f' then some (Char.ofNat 12)
  else none

/-- Parse the body of a JSON string (after the opening quote), returning the
decoded string and the rest of the input.  `\uXXXX` escapes are not modelled. -/
def parseStrAux : List Char → List Char → Option (String × List Char)
  | [], _ => none
  | '"' :: rest, acc => some (String.mk acc.reverse, rest)
  | '\\' :: c :: rest, acc =>
    match escChar c with
    | some e => parseStrAux rest (e :: acc)
    | none => none
  | ['\\'], _ => none
  | c :: rest, acc =>
    if c.toNat < 32 then none else parseStrAux rest (c :: acc)

/-- Parse a run of decimal digits into a natural number. -/
def parseDigits : List Char → Nat → Nat → Option (Nat × List Char)
  | [], 0, _ => none
  | [], _ + 1, acc => some (acc, [])
  | c :: rest, seen, acc =>
    if c.isDigit then
      parseDigits rest (seen + 1) (acc * 10 + (c.toNat - 48))
    else
      match seen with
      | 0 => none
      | _ + 1 => some (acc, c :: rest)

mutual

/-- Parse one JSON value.  The fuel argument bounds recursion depth; one unit
of input is consumed before each recursive call, so fuel `length + 1` is
always sufficient. -/
def parseVal : Nat → List Char → Option (Json × List Char)
  | 0, _ => none
  | f + 1, s =>
    match skipWs s with
    | [] => none
    | c :: rest =>
      if c = '{' then parseObjBody f rest true []
      else if c = '[' then parseArrBody f rest true []
      else if c = '"' then
        match parseStrAux rest [] with
        | some (str, r) => some (Json.str str, r)
        | none => none
      else if c = '-' then
        match parseDigits rest 0 0 with
        | some (n, r) =>
          if r.head? = some '.' ∨ r.head? = some 'e' ∨ r.head? = some 'E' then none
          else some (Json.num (-(n : Int)), r)
        | none => none
      else if c.isDigit then
        match parseDigits (c :: rest) 0 0 with
        | some (n, r) =>
          if r.head? = some '.' ∨ r.head? = some 'e' ∨ r.head? = some 'E' then none
          else some (Json.num (n : Int), r)
        | none => none
      else if ['t', 'r', 'u', 'e'].isPrefixOf (c :: rest) then
        some (Json.bool true, (c :: rest).drop 4)
      else if ['f', 'a', 'l', 's', 'e'].isPrefixOf (c :: rest) then
        some (Json.bool false, (c :: rest).drop 5)
      else if ['n', 'u', 'l', 'l'].isPrefixOf (c :: rest) then
        some (Json.null, (c :: rest).drop 4)
      else none

/-- Parse the members of a JSON object, positioned just after `{` (when
`first` is true) or just after a `,`.  Duplicate keys follow CPython:
the later value wins, the earlier position is kept. -/
def parseObjBody (f : Nat) (s : List Char) (first : Bool)
    (acc : List (String × Json)) : Option (Json × List Char) :=
  match f with
  | 0 => none
  | f + 1 =>
    match skipWs s with
    | [] => none
    | c :: rest =>
      if c = '}' ∧ first then some (Json.obj acc, rest)
      else if c = '"' then
        match parseStrAux rest [] with
        | some (key, r1) =>
          match skipWs r1 with
          | ':' :: r2 =>
            match parseVal f r2 with
            | some (v, r3) =>
              match skipWs r3 with
              | ',' :: r4 => parseObjBody f r4 false (dictInsert acc key v)
              | '}' :: r4 => some (Json.obj (dictInsert acc key v), r4)
              | _ => none
            | none => none
          | _ => none
        | none => none
      else none

/-- Parse the items of a JSON array, positioned just after `[` (when `first`
is true) or just after a `,`. -/
def parseArrBody (f : Nat) (s : List Char) (first : Bool)
    (acc : List Json) : Option (Json × List Char) :=
  match f with
  | 0 => none
  | f + 1 =>
    match skipWs s with
    | [] => none
    | c :: rest =>
      if c = ']' ∧ first then some (Json.arr acc, rest)
      else
        match parseVal f (c :: rest) with
        | some (v, r1) =>
          match skipWs r1 with
          | ',' :: r2 => parseArrBody f r2 false (acc ++ [v])
          | ']' :: r2 => some (Json.arr (acc ++ [v]), r2)
          | _ => none
        | none => none

end

/-- Python `json.loads`: parse exactly one JSON document; anything but
trailing whitespace after it is an error (`json.loads` rejects trailing
or leading junk).  The fuel `2 * length + 2` dominates the total number of
recursive calls, every one of which either consumes input or follows a
consuming call. -/
def json_loads (s : List Char) : Option Json :=
  match parseVal (2 * s.length + 2) s with
  | some (j, rest) => if skipWs rest = [] then some j else none
  | none => none

/-! ## The extraction function and the per-file loop of `app.py` -/

/-- An uploaded file: its name and the outcome of the remote model call made
for it (`model.generate_content([prompt, image]).text`).  `Except.error ()`
models any exception raised inside the `try` block of
`extract_invoice_data` (network error, auth error, timeout, quota, ...). -/
structure UploadedFile where
  name : String
  reply : Except Unit (List Char)

/-- The response normalizer: fence cleanup followed by `json.loads`.  This is
what `extract_invoice_data` applies to the reply text it receives. -/
def normalize (text : List Char) : Option Json :=
  json_loads (cleanText text)

/-- `extract_invoice_data` of `app.py`: on any exception from the remote call
the function returns `None`; otherwise the reply text is cleaned of fence
markers, stripped, and passed to `json.loads`, whose own failure is also
caught and turned into `None`. -/
def extract_invoice_data (reply : Except Unit (List Char)) : Option Json :=
  match reply with
  | .error _ => none
  | .ok text => normalize text

/-- What one iteration of the upload loop does with one file. -/
inductive StepResult where
  | skip : StepResult
  | append (record : Json) : StepResult
  | crash : StepResult

/-- The body of the `for i, file in enumerate(uploaded_files)` loop applied
to one file: `data = extract_invoice_data(...)`; `if data:` (Python
truthiness); `data['source_file'] = file.name` — a `TypeError` (crash) when
`data` is a truthy non-dict — then append. -/
def stepFile (f : UploadedFile) : StepResult :=
  match extract_invoice_data f.reply with
  | none => .skip
  | some d =>
    if truthy d then
      match d with
      | .obj fields => .append (.obj (dictInsert fields "source_file" (.str f.name)))
      | _ => .crash
    else .skip

/-- The record a file contributes to `all_extracted_data`, if any. -/
def appendedOf (f : UploadedFile) : Option Json :=
  match stepFile f with
  | .append j => some j
  | _ => none

/-- Observable outcome of one batch run: the content of
`all_extracted_data` when the loop ended, the successive values shown on
the progress bar, and whether the loop ran to completion (`false` when an
uncaught exception aborted the script). -/
structure BatchResult where
  records : List Json
  progress : List ℚ
  completed : Bool

/-- The upload loop from index `i` on, with `n = len(uploaded_files)`:
progress `(i + 1) / n` is reported after each file; an uncaught exception
stops the loop at once (nothing further is processed or reported). -/
def runBatchAux (n : ℕ) : ℕ → List UploadedFile → BatchResult
  | _, [] => ⟨[], [], true⟩
  | i, f :: rest =>
    match stepFile f with
    | .crash => ⟨[], [], false⟩
    | .skip =>
      let r := runBatchAux n (i + 1) rest
      ⟨r.records, ((i + 1 : ℕ) : ℚ) / (n : ℚ) :: r.progress, r.completed⟩
    | .append j =>
      let r := runBatchAux n (i + 1) rest
      ⟨j :: r.records, ((i + 1 : ℕ) : ℚ) / (n : ℚ) :: r.progress, r.completed⟩

/-- One whole batch run: `st.progress(0)` is shown before the loop, then the
loop of `app.py` section 4 runs over the files in upload order. -/
def runBatch (files : List UploadedFile) : BatchResult :=
  let r := runBatchAux files.length 0 files
  ⟨r.records, (0 : ℚ) :: r.progress, r.completed⟩

/-! ## Analytics: `top_cat = df['category'].mode()[0]` -/

/-- The string cells of the `category` column of the DataFrame built from
the records: records without the key (or with a non-string value) are `NaN`
cells, which `Series.mode()` drops (`dropna=True` is its default). -/
def categoryCells (recs : List Json) : List String :=
  recs.filterMap fun r =>
    match r with
    | .obj fs =>
      match lookupJ fs "category" with
      | some (.str s) => some s
      | _ => none
    | _ => none

/-- The highest number of occurrences of any value in the list. -/
def maxCatCount (cats : List String) : ℕ :=
  cats.foldr (fun c m => max (cats.count c) m) 0

/-- Lexicographic comparison of character lists by code point — the order
Python (and hence pandas sorting) uses on strings. -/
def charsLe : List Char → List Char → Bool
  | [], _ => true
  | _ :: _, [] => false
  | a :: as, b :: bs =>
    if a.toNat < b.toNat then true
    else if b.toNat < a.toNat then false
    else charsLe as bs

/-- Lexicographic comparison of strings by code point. -/
def strLe (a b : String) : Bool := charsLe a.data b.data

/-- `strLe` as a relation, for use with `List.insertionSort`. -/
def strLeP (a b : String) : Prop := strLe a b = true

instance : DecidableRel strLeP := fun a b => instDecidableEqBool (strLe a b) true

/-- `Series.mode()`: the distinct values attaining the maximal count, in
sorted (ascending) order — pandas sorts the modes. -/
def pandasMode (cats : List String) : List String :=
  (cats.dedup.insertionSort strLeP).filter fun v => cats.count v == maxCatCount cats

/-- `df['category'].mode()[0]` of `app.py`: the first element of the sorted
mode series; `none` models the `KeyError` raised by `[0]` on an empty mode
series. -/
def topCat (cats : List String) : Option String :=
  (pandasMode cats).head?

/-- Modelled from the spec: "modal `category` (first-encountered value on
ties)" — the first value in table order whose count is maximal.  Used to
compare the spec's tie-breaking rule with the code's. -/
def specTopCat (cats : List String) : Option String :=
  cats.find? fun v => cats.count v = maxCatCount cats

/-! ## Export: DataFrame columns and the Excel writer -/

/-- Accumulate one record's keys into the running column list: a new key is
appended at the end, an existing key is kept where it is. -/
def colInsert (cols : List String) (r : List (String × Json)) : List String :=
  r.foldl (fun cs kv => if kv.1 ∈ cs then cs else cs ++ [kv.1]) cols

/-- The columns of `pd.read_json(json.dumps(records))`: the union of the
records' keys in order of first appearance. -/
def dfColumns (recs : List (List (String × Json))) : List String :=
  recs.foldl colInsert []

/-- The column order the spec asserts for the export. -/
def claimedExportColumns : List String :=
  ["date", "vendor_name", "category", "total_amount", "currency", "invoice_number", "source_file"]

/-- One cell of the DataFrame: a record without the key holds `NaN`,
modelled as `Json.null` (both export as a blank cell). -/
def cellOf (r : List (String × Json)) (col : String) : Json :=
  (lookupJ r col).getD Json.null

/-- The grid of cells written by `to_excel`, row by row. -/
def exportRows (cols : List String) (recs : List (List (String × Json))) :
    List (List Json) :=
  recs.map fun r => cols.map (cellOf r)

/-- The export block of `app.py` section 5.4: build the DataFrame columns,
re-render the `date` column (`export_df['date'].dt.strftime(...)` — a
`KeyError`, modelled as `Except.error`, when no record has a `date` key),
then `to_excel(writer, index=False, sheet_name='Invoices')`.  On success:
(sheet name, column order, cell grid). -/
def exportSheet (recs : List (List (String × Json))) :
    Except Unit (String × List String × List (List Json)) :=
  let cols := dfColumns recs
  if "date" ∈ cols then .ok ("Invoices", cols, exportRows cols recs) else .error ()

/-! ## Lemmas about `replaceAll` (Python `str.replace`) -/

theorem isPrefixOf_eq_true_iff {l1 l2 : List Char} :
    l1.isPrefixOf l2 = true ↔ l1 <+: l2 :=
  List.isPrefixOf_iff_prefix

theorem replA_zero (pat rep : List Char) (s : List Char) :
    replA pat rep s 0 = replaceAll pat rep s := rfl

theorem replA_skip (pat rep : List Char) :
    ∀ (k : ℕ) (s : List Char), replA pat rep s k = replaceAll pat rep (s.drop k)
  | 0, s => by simp [replaceAll]
  | k + 1, [] => by simp [replaceAll, replA]
  | k + 1, c :: rest => by
    show replA pat rep rest k = _
    rw [replA_skip pat rep k rest]
    rfl

theorem replaceAll_cons_match {pat : List Char} (rep : List Char) {c : Char}
    {s : List Char} (hp : pat ≠ []) (h : pat.isPrefixOf (c :: s) = true) :
    replaceAll pat rep (c :: s) = rep ++ replaceAll pat rep ((c :: s).drop pat.length) := by
  obtain ⟨m, hm⟩ : ∃ m, pat.length = m + 1 := by
    cases pat with
    | nil => exact absurd rfl hp
    | cons p ps => exact ⟨ps.length, rfl⟩
  show replA pat rep (c :: s) 0 = _
  rw [show replA pat rep (c :: s) 0 =
      if pat ≠ [] ∧ pat.isPrefixOf (c :: s) then
        rep ++ replA pat rep s (pat.length - 1)
      else c :: replA pat rep s 0 from rfl]
  rw [if_pos ⟨hp, h⟩, replA_skip, hm]
  rfl

theorem replaceAll_cons_nomatch {pat : List Char} (rep : List Char) {c : Char}
    {s : List Char} (h : ¬(pat ≠ [] ∧ pat.isPrefixOf (c :: s) = true)) :
    replaceAll pat rep (c :: s) = c :: replaceAll pat rep s := by
  show replA pat rep (c :: s) 0 = _
  rw [show replA pat rep (c :: s) 0 =
      if pat ≠ [] ∧ pat.isPrefixOf (c :: s) then
        rep ++ replA pat rep s (pat.length - 1)
      else c :: replA pat rep s 0 from rfl]
  rw [if_neg h]
  rfl

theorem replaceAll_append_self {pat : List Char} (rep rest : List Char) (hp : pat ≠ []) :
    replaceAll pat rep (pat ++ rest) = rep ++ replaceAll pat rep rest := by
  cases pat with
  | nil => exact absurd rfl hp
  | cons p ps =>
    rw [List.cons_append, replaceAll_cons_match rep hp
      (isPrefixOf_eq_true_iff.mpr (by rw [← List.cons_append]; exact List.prefix_append _ _))]
    congr 1
    rw [← List.cons_append, List.drop_append_of_le_length le_rfl, List.drop_length,
      List.nil_append]

theorem isPrefixOf_append_cons {pat : List Char} {c : Char}
    (hc : c ∉ pat) : ∀ (A B : List Char),
    pat.isPrefixOf (A ++ c :: B) = pat.isPrefixOf A := by
  induction pat with
  | nil => intro A B; cases A <;> rfl
  | cons p ps ih =>
    intro A B
    cases A with
    | nil =>
      have hpc : (p == c) = false :=
        beq_eq_false_iff_ne.mpr (fun h => hc (by simp [h]))
      simp only [List.nil_append, List.isPrefixOf, hpc, Bool.false_and]
    | cons a as =>
      simp only [List.cons_append, List.isPrefixOf, List.append_eq]
      rw [ih (fun h => hc (List.mem_cons_of_mem p h)) as B]

theorem replaceAll_append_cons {pat : List Char} (rep : List Char) {c : Char}
    (hc : c ∉ pat) (A B : List Char) :
    replaceAll pat rep (A ++ c :: B) = replaceAll pat rep A ++ c :: replaceAll pat rep B := by
  by_cases hp : pat = []
  · subst hp
    induction A with
    | nil => rw [List.nil_append, replaceAll_cons_nomatch rep (by simp)]; rfl
    | cons a as ih =>
      rw [List.cons_append, replaceAll_cons_nomatch rep (by simp),
        replaceAll_cons_nomatch rep (by simp), ih, List.cons_append]
  · have main : ∀ (n : ℕ) (A : List Char), A.length = n →
        replaceAll pat rep (A ++ c :: B) = replaceAll pat rep A ++ c :: replaceAll pat rep B := by
      intro n
      induction n using Nat.strong_induction_on with
      | _ n ih =>
        intro A hn
        cases A with
        | nil =>
          rw [List.nil_append, replaceAll_cons_nomatch rep]
          · rfl
          · rintro ⟨-, h⟩
            rw [show (c :: B) = [] ++ c :: B from rfl, isPrefixOf_append_cons hc [] B] at h
            cases pat with
            | nil => exact hp rfl
            | cons p ps => simp [List.isPrefixOf] at h
        | cons a as =>
          by_cases hpre : pat.isPrefixOf (a :: as) = true
          · have hlen : pat.length ≤ (a :: as).length :=
              (isPrefixOf_eq_true_iff.mp hpre).length_le
            have h1 : pat.isPrefixOf ((a :: as) ++ c :: B) = true := by
              rw [isPrefixOf_append_cons hc]; exact hpre
            rw [List.cons_append,
              replaceAll_cons_match rep hp
                (show pat.isPrefixOf (a :: (as ++ c :: B)) = true by
                  rw [← List.cons_append]; exact h1),
              replaceAll_cons_match rep hp hpre,
              ← List.cons_append, List.drop_append_of_le_length hlen]
            have hdroplen : ((a :: as).drop pat.length).length < n := by
              have : 0 < pat.length := List.length_pos.mpr hp
              rw [List.length_drop, List.length_cons]
              simp only [List.length_cons] at hn
              omega
            rw [ih _ hdroplen _ rfl, List.append_assoc]
          · have h2 : ¬ pat.isPrefixOf ((a :: as) ++ c :: B) = true := by
              rw [isPrefixOf_append_cons hc]; exact hpre
            rw [List.cons_append,
              @replaceAll_cons_nomatch pat rep a (as ++ c :: B) (fun hcon => h2 hcon.2),
              @replaceAll_cons_nomatch pat rep a as (fun hcon => hpre hcon.2)]
            have has : as.length < n := by
              simp only [List.length_cons] at hn
              omega
            rw [ih _ has _ rfl, List.cons_append]
    exact main A.length A rfl

theorem replaceAll_of_not_occurring {pat : List Char} (rep : List Char) :
    ∀ {s : List Char}, ¬ pat <:+: s → replaceAll pat rep s = s := by
  intro s
  induction s with
  | nil => intro _; rfl
  | cons c cs ih =>
    intro h
    rw [replaceAll_cons_nomatch rep, ih (fun hi => h (List.infix_cons hi))]
    rintro ⟨-, hpre⟩
    exact h (isPrefixOf_eq_true_iff.mp hpre).isInfix

/-! ## Lemmas about `pyStrip` (Python `str.strip`) -/

theorem pyStrip_cons_ws {c : Char} (h : isPyWs c = true) (s : List Char) :
    pyStrip (c :: s) = pyStrip s := by
  unfold pyStrip
  rw [List.dropWhile_cons, if_pos h]

theorem pyStrip_append_ws {c : Char} (h : isPyWs c = true) (s : List Char) :
    pyStrip (s ++ [c]) = pyStrip s := by
  unfold pyStrip
  rw [List.dropWhile_append]
  by_cases he : (s.dropWhile isPyWs).isEmpty = true
  · rw [if_pos he]
    rw [List.isEmpty_iff] at he
    rw [he]
    simp [List.dropWhile_cons, h]
  · rw [if_neg he, List.reverse_append]
    simp [List.dropWhile_cons, h]

theorem replaceAll_nil (pat rep : List Char) : replaceAll pat rep [] = [] := rfl

theorem replaceAll_fenceJson_fence : replaceAll fenceJsonPat [] fencePat = fencePat := rfl

theorem replaceAll_fence_self : replaceAll fencePat [] fencePat = [] := rfl

theorem fenceJsonPat_ne_nil : fenceJsonPat ≠ [] := by decide

theorem newline_not_mem_fenceJsonPat : '\n' ∉ fenceJsonPat := by decide

theorem newline_not_mem_fencePat : '\n' ∉ fencePat := by decide

theorem fenceJsonPat_not_occurring {t : List Char} (h : ¬ fencePat <:+: t) :
    ¬ fenceJsonPat <:+: t :=
  fun hi => h ((List.prefix_append fencePat ['j', 's', 'o', 'n']).isInfix.trans hi)

/-- The central computation for fence stripping: on a text with no fence
marker inside, wrapping in fences and cleaning gives back the stripped text. -/
theorem cleanText_wrapFence {t : List Char} (h : ¬ fencePat <:+: t) :
    cleanText (wrapFence t) = cleanText t := by
  have hj : ¬ fenceJsonPat <:+: t := fenceJsonPat_not_occurring h
  have s1 : replaceAll fenceJsonPat [] (wrapFence t) = '\n' :: (t ++ '\n' :: fencePat) := by
    show replaceAll fenceJsonPat []
      (fenceJsonPat ++ ('\n' :: (t ++ '\n' :: fencePat))) = _
    rw [replaceAll_append_self [] ('\n' :: (t ++ '\n' :: fencePat)) fenceJsonPat_ne_nil,
      List.nil_append]
    have e1 := replaceAll_append_cons []
      newline_not_mem_fenceJsonPat [] (t ++ '\n' :: fencePat)
    simp only [List.nil_append, replaceAll_nil] at e1
    rw [e1]
    have e2 := replaceAll_append_cons []
      newline_not_mem_fenceJsonPat t fencePat
    rw [e2, replaceAll_of_not_occurring [] hj, replaceAll_fenceJson_fence]
  have s2 : replaceAll fencePat [] ('\n' :: (t ++ '\n' :: fencePat))
      = '\n' :: (t ++ ['\n']) := by
    have e1 := replaceAll_append_cons []
      newline_not_mem_fencePat [] (t ++ '\n' :: fencePat)
    simp only [List.nil_append, replaceAll_nil] at e1
    rw [e1]
    have e2 := replaceAll_append_cons []
      newline_not_mem_fencePat t fencePat
    rw [e2, replaceAll_of_not_occurring [] h, replaceAll_fence_self]
  show pyStrip (replaceAll fencePat [] (replaceAll fenceJsonPat [] (wrapFence t)))
    = pyStrip (replaceAll fencePat [] (replaceAll fenceJsonPat [] t))
  rw [s1, s2, replaceAll_of_not_occurring [] hj, replaceAll_of_not_occurring [] h,
    pyStrip_cons_ws (by decide), pyStrip_append_ws (by decide)]

/-! ## Lemmas about `dictInsert`, `lookupJ`, `stepFile` and the batch loop -/

theorem lookupJ_dictInsert_self (fs : List (String × Json)) (k : String) (v : Json) :
    lookupJ (dictInsert fs k v) k = some v := by
  induction fs with
  | nil => simp [dictInsert, lookupJ]
  | cons kv rest ih =>
    obtain ⟨k', v'⟩ := kv
    by_cases h : k' = k
    · simp [dictInsert, lookupJ, h]
    · simp [dictInsert, lookupJ, h, ih]

theorem lookupJ_dictInsert_ne (fs : List (String × Json)) {k k' : String}
    (v : Json) (h : k' ≠ k) :
    lookupJ (dictInsert fs k v) k' = lookupJ fs k' := by
  induction fs with
  | nil => simp [dictInsert, lookupJ, Ne.symm h]
  | cons kv rest ih =>
    obtain ⟨k0, v0⟩ := kv
    by_cases h0 : k0 = k
    · subst h0
      simp [dictInsert, lookupJ, Ne.symm h]
    · simp only [dictInsert, if_neg h0, lookupJ]
      by_cases h1 : k0 = k'
      · rw [if_pos h1, if_pos h1]
      · rw [if_neg h1, if_neg h1, ih]

theorem stepFile_append_inv {f : UploadedFile} {j : Json}
    (h : stepFile f = .append j) :
    ∃ fs, extract_invoice_data f.reply = some (.obj fs) ∧ truthy (.obj fs) = true
      ∧ j = .obj (dictInsert fs "source_file" (.str f.name)) := by
  cases he : extract_invoice_data f.reply with
  | none =>
    simp only [stepFile, he] at h
    exact StepResult.noConfusion h
  | some d =>
    simp only [stepFile, he] at h
    by_cases ht : truthy d = true
    · rw [if_pos ht] at h
      cases d with
      | obj fields =>
        refine ⟨fields, rfl, ht, ?_⟩
        injection h with h'
        exact h'.symm
      | null => exact StepResult.noConfusion h
      | bool b => exact StepResult.noConfusion h
      | num n => exact StepResult.noConfusion h
      | str s => exact StepResult.noConfusion h
      | arr xs => exact StepResult.noConfusion h
    · rw [if_neg ht] at h
      exact StepResult.noConfusion h

theorem stepFile_skip_of_extract_none {f : UploadedFile}
    (h : extract_invoice_data f.reply = none) : stepFile f = .skip := by
  unfold stepFile
  rw [h]

theorem appendedOf_eq_none_of_skip {f : UploadedFile}
    (h : stepFile f = .skip) : appendedOf f = none := by
  unfold appendedOf
  rw [h]

theorem appendedOf_eq_some_of_append {f : UploadedFile} {j : Json}
    (h : stepFile f = .append j) : appendedOf f = some j := by
  unfold appendedOf
  rw [h]

/-- Closed form of the loop when no file triggers an uncaught exception:
every file is attempted, the appended records are collected in upload
order, and progress `(i+1)/n` is reported after each file. -/
theorem runBatchAux_eq_of_no_crash (n : ℕ) :
    ∀ (files : List UploadedFile) (i : ℕ),
    (∀ f ∈ files, stepFile f ≠ .crash) →
    runBatchAux n i files =
      ⟨files.filterMap appendedOf,
       (List.range files.length).map (fun k => ((i + k + 1 : ℕ) : ℚ) / (n : ℚ)),
       true⟩ := by
  intro files
  induction files with
  | nil => intro i _; rfl
  | cons f rest ih =>
    intro i h
    have hf : stepFile f ≠ .crash := h f (List.mem_cons_self f rest)
    have hrest : ∀ g ∈ rest, stepFile g ≠ .crash :=
      fun g hg => h g (List.mem_cons_of_mem f hg)
    have hprog : (List.range (rest.length + 1)).map
          (fun k => ((i + k + 1 : ℕ) : ℚ) / (n : ℚ))
        = ((i + 1 : ℕ) : ℚ) / (n : ℚ) ::
          (List.range rest.length).map (fun k => ((i + 1 + k + 1 : ℕ) : ℚ) / (n : ℚ)) := by
      rw [List.range_succ_eq_map, List.map_cons, List.map_map]
      refine congrArg₂ _ rfl (List.map_congr_left ?_)
      intro k _
      have h2 : i + Nat.succ k + 1 = i + 1 + k + 1 := by omega
      simp only [Function.comp_apply, h2]
    cases hs : stepFile f with
    | crash => exact absurd hs hf
    | skip =>
      simp only [runBatchAux, hs, ih (i + 1) hrest, BatchResult.mk.injEq]
      refine ⟨?_, ?_, trivial⟩
      · simp [List.filterMap_cons, appendedOf_eq_none_of_skip hs]
      · rw [List.length_cons, hprog]
    | append j =>
      simp only [runBatchAux, hs, ih (i + 1) hrest, BatchResult.mk.injEq]
      refine ⟨?_, ?_, trivial⟩
      · simp [List.filterMap_cons, appendedOf_eq_some_of_append hs]
      · rw [List.length_cons, hprog]

/-- The records accumulated by the loop are always the appended records of
some prefix of the batch (the whole batch when no crash occurred). -/
theorem runBatchAux_records_take (n : ℕ) :
    ∀ (files : List UploadedFile) (i : ℕ),
    ∃ k, (runBatchAux n i files).records = (files.take k).filterMap appendedOf := by
  intro files
  induction files with
  | nil => exact fun i => ⟨0, rfl⟩
  | cons f rest ih =>
    intro i
    cases hs : stepFile f with
    | crash =>
      refine ⟨0, ?_⟩
      simp only [runBatchAux, hs]
      rfl
    | skip =>
      obtain ⟨k, hk⟩ := ih (i + 1)
      refine ⟨k + 1, ?_⟩
      simp only [runBatchAux, hs, List.take_succ_cons,
        List.filterMap_cons, appendedOf_eq_none_of_skip hs]
      exact hk
    | append j =>
      obtain ⟨k, hk⟩ := ih (i + 1)
      refine ⟨k + 1, ?_⟩
      simp only [runBatchAux, hs, List.take_succ_cons,
        List.filterMap_cons, appendedOf_eq_some_of_append hs]
      rw [hk]

theorem length_filterMap_appendedOf_of_all_append :
    ∀ (l : List UploadedFile), (∀ f ∈ l, ∃ j, stepFile f = .append j) →
    (l.filterMap appendedOf).length = l.length := by
  intro l
  induction l with
  | nil => intro _; rfl
  | cons f rest ih =>
    intro h
    obtain ⟨j, hj⟩ := h f (List.mem_cons_self f rest)
    rw [List.filterMap_cons, appendedOf_eq_some_of_append hj, List.length_cons,
      ih (fun g hg => h g (List.mem_cons_of_mem f hg)), List.length_cons]

/-! ## Lemmas about the string order and `pandasMode` -/

theorem charsLe_refl : ∀ a : List Char, charsLe a a = true := by
  intro a
  induction a with
  | nil => rfl
  | cons c cs ih =>
    simp only [charsLe, lt_irrefl, if_false]
    exact ih

theorem charsLe_total : ∀ a b : List Char, charsLe a b = true ∨ charsLe b a = true := by
  intro a
  induction a with
  | nil => intro b; left; rfl
  | cons c cs ih =>
    intro b
    cases b with
    | nil => right; rfl
    | cons d ds =>
      simp only [charsLe]
      rcases Nat.lt_trichotomy c.toNat d.toNat with h | h | h
      · left; rw [if_pos h]
      · rw [h, if_neg (lt_irrefl _), if_neg (lt_irrefl _), if_neg (lt_irrefl _),
          if_neg (lt_irrefl _)]
        exact ih ds
      · right; rw [if_pos h]

theorem charsLe_trans : ∀ a b c : List Char,
    charsLe a b = true → charsLe b c = true → charsLe a c = true := by
  intro a
  induction a with
  | nil => intro b c _ _; rfl
  | cons x xs ih =>
    intro b c hab hbc
    cases b with
    | nil => exact absurd hab (by simp [charsLe])
    | cons y ys =>
      cases c with
      | nil => exact absurd hbc (by simp [charsLe])
      | cons z zs =>
        simp only [charsLe] at hab hbc ⊢
        split_ifs at hab hbc ⊢ <;> first
          | rfl
          | exact ih ys zs hab hbc
          | omega

instance : IsTotal String strLeP :=
  ⟨fun a b => charsLe_total a.data b.data⟩

instance : IsTrans String strLeP :=
  ⟨fun a b c => charsLe_trans a.data b.data c.data⟩

theorem strLe_refl (a : String) : strLe a a = true := charsLe_refl a.data

/-- Every count is bounded by the running fold maximum. -/
theorem count_le_foldr_max (cats : List String) :
    ∀ (l : List String), ∀ c ∈ l,
    cats.count c ≤ l.foldr (fun c m => max (cats.count c) m) 0 := by
  intro l
  induction l with
  | nil => intro c hc; exact absurd hc (List.not_mem_nil c)
  | cons a as ih =>
    intro c hc
    rcases List.mem_cons.mp hc with h | h
    · subst h; exact le_max_left _ _
    · exact le_trans (ih c h) (le_max_right _ _)

/-- The fold maximum is attained on a non-empty list. -/
theorem foldr_max_attained (cats : List String) :
    ∀ (l : List String), l ≠ [] →
    ∃ c ∈ l, l.foldr (fun c m => max (cats.count c) m) 0 = cats.count c := by
  intro l
  induction l with
  | nil => intro h; exact absurd rfl h
  | cons a as ih =>
    intro _
    by_cases has : as = []
    · subst has
      exact ⟨a, List.mem_cons_self a _, by simp⟩
    · obtain ⟨c, hc, hceq⟩ := ih has
      rcases le_total (as.foldr (fun c m => max (cats.count c) m) 0) (cats.count a) with h | h
      · refine ⟨a, List.mem_cons_self a _, ?_⟩
        simp only [List.foldr_cons]
        exact max_eq_left h
      · refine ⟨c, List.mem_cons_of_mem a hc, ?_⟩
        simp only [List.foldr_cons]
        rw [max_eq_right h, hceq]

theorem count_le_maxCatCount (cats : List String) {c : String} (hc : c ∈ cats) :
    cats.count c ≤ maxCatCount cats :=
  count_le_foldr_max cats cats c hc

theorem maxCatCount_attained {cats : List String} (h : cats ≠ []) :
    ∃ c ∈ cats, maxCatCount cats = cats.count c :=
  foldr_max_attained cats cats h

theorem mem_pandasMode {cats : List String} {v : String} :
    v ∈ pandasMode cats ↔ v ∈ cats ∧ cats.count v = maxCatCount cats := by
  unfold pandasMode
  rw [List.mem_filter, List.mem_insertionSort, List.mem_dedup]
  constructor
  · rintro ⟨h1, h2⟩
    exact ⟨h1, by simpa using h2⟩
  · rintro ⟨h1, h2⟩
    exact ⟨h1, by simpa using h2⟩

theorem pandasMode_sorted (cats : List String) :
    (pandasMode cats).Sorted strLeP :=
  (List.sorted_insertionSort strLeP cats.dedup).filter _

/-! ## Lemmas about `dfColumns` -/

theorem colInsert_of_mem {r : List (String × Json)} :
    ∀ {cols : List String}, (∀ kv ∈ r, kv.1 ∈ cols) → colInsert cols r = cols := by
  induction r with
  | nil => intro cols _; rfl
  | cons kv rest ih =>
    intro cols h
    unfold colInsert
    rw [List.foldl_cons, if_pos (h kv (List.mem_cons_self kv rest))]
    exact ih (fun kv' h' => h kv' (List.mem_cons_of_mem kv h'))

theorem colInsert_of_disjoint {r : List (String × Json)} :
    ∀ {cols : List String}, (∀ kv ∈ r, kv.1 ∉ cols) → (r.map Prod.fst).Nodup →
    colInsert cols r = cols ++ r.map Prod.fst := by
  induction r with
  | nil => intro cols _ _; simp [colInsert]
  | cons kv rest ih =>
    intro cols h hnd
    unfold colInsert
    rw [List.foldl_cons, if_neg (h kv (List.mem_cons_self kv rest))]
    rw [List.map_cons, List.nodup_cons] at hnd
    have h' : ∀ kv' ∈ rest, kv'.1 ∉ cols ++ [kv.1] := by
      intro kv' hm
      rw [List.mem_append, List.mem_singleton]
      rintro (hl | hr)
      · exact h kv' (List.mem_cons_of_mem kv hm) hl
      · exact hnd.1 (hr ▸ List.mem_map_of_mem Prod.fst hm)
    have := @ih (cols ++ [kv.1]) h' hnd.2
    unfold colInsert at this
    rw [this, List.append_assoc, List.singleton_append, List.map_cons]

theorem claimedExportColumns_nodup : claimedExportColumns.Nodup := by decide

theorem dfColumns_of_uniform {recs : List (List (String × Json))}
    (h : ∀ r ∈ recs, r.map Prod.fst = claimedExportColumns) (hne : recs ≠ []) :
    dfColumns recs = claimedExportColumns := by
  cases recs with
  | nil => exact absurd rfl hne
  | cons r0 rest =>
    unfold dfColumns
    rw [List.foldl_cons]
    have h0 : colInsert [] r0 = claimedExportColumns := by
      rw [colInsert_of_disjoint (by simp)
        (by rw [h r0 (List.mem_cons_self r0 rest)]; exact claimedExportColumns_nodup),
        List.nil_append, h r0 (List.mem_cons_self r0 rest)]
    rw [h0]
    have : ∀ (l : List (List (String × Json))),
        (∀ r ∈ l, r.map Prod.fst = claimedExportColumns) →
        l.foldl colInsert claimedExportColumns = claimedExportColumns := by
      intro l
      induction l with
      | nil => intro _; rfl
      | cons a as iha =>
        intro hl
        rw [List.foldl_cons, colInsert_of_mem (fun kv hkv => by
          rw [← hl a (List.mem_cons_self a as)]
          exact List.mem_map_of_mem Prod.fst hkv)]
        exact iha (fun r hr => hl r (List.mem_cons_of_mem a hr))
    exact this rest (fun r hr => h r (List.mem_cons_of_mem r0 hr))

/-! ## Claim C1 : category coercion -/

/-- C1, counterexample: the code never coerces categories.  A model reply
with category `"Snacks"` (not a canonical label) is stored with category
`"Snacks"`, not `"Other"`, refuting the claimed coercion onto the closed
enumeration. -/
theorem c1_counterexample :
    (runBatch [⟨"r.png", .ok ("\x7b\"category\": \"Snacks\", \"vendor_name\": \"X\"\x7d".toList)⟩]).records
      = [Json.obj [("category", .str "Snacks"), ("vendor_name", .str "X"),
          ("source_file", .str "r.png")]]
    ∧ lookupJ [("category", .str "Snacks"), ("vendor_name", .str "X"),
        ("source_file", .str "r.png")] "category" = some (.str "Snacks")
    ∧ Json.str "Snacks" ≠ Json.str "Other" :=
  ⟨rfl, rfl, by simp⟩

/-- C1, amended: no category coercion happens anywhere in the pipeline.  The
stored record's `category` is exactly the string the model produced: canonical
labels pass through unchanged (trivially, as does every other value), and
non-canonical strings are stored verbatim rather than mapped to `Other`. -/
theorem c1_category_passthrough (f : UploadedFile) (fs : List (String × Json))
    (h : extract_invoice_data f.reply = some (.obj fs))
    (ht : truthy (.obj fs) = true) :
    stepFile f = .append (.obj (dictInsert fs "source_file" (.str f.name)))
    ∧ lookupJ (dictInsert fs "source_file" (.str f.name)) "category" = lookupJ fs "category" := by
  constructor
  · simp only [stepFile, h, ht, if_true, if_pos]
  · exact lookupJ_dictInsert_ne fs _ (by decide)

/-- C1, witness for `c1_category_passthrough`, at a reply whose category is
the non-canonical string `"Makanan"`: the stored category is `"Makanan"`. -/
theorem c1_witness :
    extract_invoice_data (.ok ("\x7b\"category\": \"Makanan\"\x7d".toList))
      = some (.obj [("category", Json.str "Makanan")])
    ∧ truthy (.obj [("category", Json.str "Makanan")]) = true
    ∧ (stepFile ⟨"w.png", .ok ("\x7b\"category\": \"Makanan\"\x7d".toList)⟩
        = .append (.obj (dictInsert [("category", Json.str "Makanan")] "source_file" (.str "w.png")))
      ∧ lookupJ (dictInsert [("category", Json.str "Makanan")] "source_file" (.str "w.png")) "category"
        = lookupJ [("category", Json.str "Makanan")] "category") :=
  ⟨rfl, rfl, c1_category_passthrough ⟨"w.png", _⟩ _ rfl rfl⟩

/-! ## Claim C2 : amount normalization -/

/-- C2, counterexample: the code performs no amount normalization.  A model
reply whose `total_amount` is the string `"Rp 45.000"` (currency symbol,
thousands separator, digits) is stored as that very string — neither the
number 45000 nor the absent state. -/
theorem c2_counterexample :
    (runBatch [⟨"a.png", .ok ("\x7b\"total_amount\": \"Rp 45.000\", \"vendor_name\": \"W\"\x7d".toList)⟩]).records
      = [Json.obj [("total_amount", .str "Rp 45.000"), ("vendor_name", .str "W"),
          ("source_file", .str "a.png")]]
    ∧ lookupJ [("total_amount", .str "Rp 45.000"), ("vendor_name", .str "W"),
        ("source_file", .str "a.png")] "total_amount" = some (.str "Rp 45.000")
    ∧ Json.str "Rp 45.000" ≠ Json.num 45000
    ∧ some (Json.str "Rp 45.000") ≠ (none : Option Json) :=
  ⟨rfl, rfl, by simp, by simp⟩

/-- C2, amended: no amount normalization occurs in the code.  The stored
record's `total_amount` is exactly the JSON value the model produced —
stripping of currency symbols and separators is only requested from the model
in the prompt, and a non-numeric amount string is stored verbatim rather than
becoming absent (or zero). -/
theorem c2_amount_passthrough (f : UploadedFile) (fs : List (String × Json))
    (h : extract_invoice_data f.reply = some (.obj fs))
    (ht : truthy (.obj fs) = true) :
    stepFile f = .append (.obj (dictInsert fs "source_file" (.str f.name)))
    ∧ lookupJ (dictInsert fs "source_file" (.str f.name)) "total_amount"
      = lookupJ fs "total_amount" := by
  constructor
  · simp only [stepFile, h, ht, if_true, if_pos]
  · exact lookupJ_dictInsert_ne fs _ (by decide)

/-- C2, witness for `c2_amount_passthrough`, at a reply whose amount is the
string `"USD 1,000"`: the stored amount is that string, unchanged. -/
theorem c2_witness :
    extract_invoice_data (.ok ("\x7b\"total_amount\": \"USD 1,000\"\x7d".toList))
      = some (.obj [("total_amount", Json.str "USD 1,000")])
    ∧ truthy (.obj [("total_amount", Json.str "USD 1,000")]) = true
    ∧ (stepFile ⟨"u.png", .ok ("\x7b\"total_amount\": \"USD 1,000\"\x7d".toList)⟩
        = .append (.obj (dictInsert [("total_amount", Json.str "USD 1,000")] "source_file" (.str "u.png")))
      ∧ lookupJ (dictInsert [("total_amount", Json.str "USD 1,000")] "source_file" (.str "u.png")) "total_amount"
        = lookupJ [("total_amount", Json.str "USD 1,000")] "total_amount") :=
  ⟨rfl, rfl, c2_amount_passthrough ⟨"u.png", _⟩ _ rfl rfl⟩

/-! ## Claim C3 : all-absent record retention -/

/-- C3, counterexample: a reply parsing to the empty JSON object — every
expected field absent — is a successful parse, yet the record is silently
dropped: `if data:` is false on an empty Python dict, so nothing is appended
and the batch completes with an empty table. -/
theorem c3_counterexample :
    extract_invoice_data (.ok ("\x7b\x7d".toList)) = some (.obj [])
    ∧ (runBatch [⟨"inv1.png", .ok ("\x7b\x7d".toList)⟩]).records = []
    ∧ (runBatch [⟨"inv1.png", .ok ("\x7b\x7d".toList)⟩]).completed = true :=
  ⟨rfl, rfl, rfl⟩

/-- C3, amended: a successfully parsed JSON object with at least one key —
in particular one in which every expected field is present but `null` — is
appended to the table with `source_file` attached; only the completely empty
object (every field absent) is silently dropped by the truthiness check. -/
theorem c3_nonempty_object_retained (f : UploadedFile) (fs : List (String × Json))
    (h : extract_invoice_data f.reply = some (.obj fs)) (hne : fs ≠ []) :
    (runBatch [f]).records = [.obj (dictInsert fs "source_file" (.str f.name))]
    ∧ (runBatch [f]).completed = true := by
  have ht : truthy (.obj fs) = true := by
    simp [truthy, hne]
  have hs : stepFile f = .append (.obj (dictInsert fs "source_file" (.str f.name))) := by
    simp only [stepFile, h, ht, if_true, if_pos]
  constructor
  · show (runBatchAux 1 0 [f]).records = _
    simp only [runBatchAux, hs]
  · show (runBatchAux 1 0 [f]).completed = true
    simp only [runBatchAux, hs]

/-- C3, witness for `c3_nonempty_object_retained`, at a reply in which every
expected field is present and `null`. -/
theorem c3_witness :
    extract_invoice_data (.ok ("\x7b\"date\": null, \"vendor_name\": null, \"category\": null, \"total_amount\": null, \"currency\": null, \"invoice_number\": null\x7d".toList))
      = some (.obj [("date", Json.null), ("vendor_name", Json.null), ("category", Json.null),
          ("total_amount", Json.null), ("currency", Json.null), ("invoice_number", Json.null)])
    ∧ ([("date", Json.null), ("vendor_name", Json.null), ("category", Json.null),
        ("total_amount", Json.null), ("currency", Json.null), ("invoice_number", Json.null)]
        : List (String × Json)) ≠ []
    ∧ ((runBatch [⟨"n.png", .ok ("\x7b\"date\": null, \"vendor_name\": null, \"category\": null, \"total_amount\": null, \"currency\": null, \"invoice_number\": null\x7d".toList)⟩]).records
        = [.obj (dictInsert [("date", Json.null), ("vendor_name", Json.null), ("category", Json.null),
            ("total_amount", Json.null), ("currency", Json.null), ("invoice_number", Json.null)]
            "source_file" (.str "n.png"))]
      ∧ (runBatch [⟨"n.png", .ok ("\x7b\"date\": null, \"vendor_name\": null, \"category\": null, \"total_amount\": null, \"currency\": null, \"invoice_number\": null\x7d".toList)⟩]).completed = true) :=
  ⟨rfl, by simp, c3_nonempty_object_retained ⟨"n.png", _⟩ _ rfl (by simp)⟩

/-! ## Claim C5 : normalizer strictness and per-image failure recovery -/

/-- C5, counterexample: the normalizer does not guarantee a JSON *object*.
The reply `[1, 2]` parses as a single JSON document and is returned as a list
— neither an object-shaped record nor a failure. -/
theorem c5_counterexample :
    extract_invoice_data (.ok ("[1, 2]".toList)) = some (.arr [.num 1, .num 2])
    ∧ isObj (.arr [.num 1, .num 2]) = false :=
  ⟨rfl, rfl⟩

/-- C5, amended: the normalizer either returns the value parsed from exactly
one JSON document (of any JSON type, not necessarily an object) or fails for
that image; a remote-call failure yields `none`, and after any per-image
failure (`extract_invoice_data = none`) the orchestrator skips the file and
continues with the remaining images. -/
theorem c5_failure_continues (f : UploadedFile) (rest : List UploadedFile)
    (h : extract_invoice_data f.reply = none) :
    (runBatch (f :: rest)).records = (runBatchAux (rest.length + 1) 1 rest).records
    ∧ (runBatch (f :: rest)).completed = (runBatchAux (rest.length + 1) 1 rest).completed
    ∧ (runBatch (f :: rest)).progress
      = 0 :: ((0 + 1 : ℕ) : ℚ) / ((rest.length + 1 : ℕ) : ℚ)
        :: (runBatchAux (rest.length + 1) 1 rest).progress
    ∧ extract_invoice_data (Except.error ()) = none := by
  have hs : stepFile f = .skip := stepFile_skip_of_extract_none h
  refine ⟨?_, ?_, ?_, rfl⟩ <;>
    simp only [runBatch, runBatchAux, hs, List.length_cons, Nat.cast_add, Nat.cast_one]

/-- C5, witness for `c5_failure_continues`: a batch whose first image's remote
call raises; the second image is still processed and contributes its record. -/
theorem c5_witness :
    extract_invoice_data (Except.error () : Except Unit (List Char)) = none
    ∧ ((runBatch [⟨"x.png", .error ()⟩, ⟨"y.png", .ok ("\x7b\"vendor_name\": \"Uber\"\x7d".toList)⟩]).records
        = (runBatchAux ([⟨"y.png", .ok ("\x7b\"vendor_name\": \"Uber\"\x7d".toList)⟩] : List UploadedFile).length.succ 1
            [⟨"y.png", .ok ("\x7b\"vendor_name\": \"Uber\"\x7d".toList)⟩]).records
      ∧ (runBatch [⟨"x.png", .error ()⟩, ⟨"y.png", .ok ("\x7b\"vendor_name\": \"Uber\"\x7d".toList)⟩]).completed
        = (runBatchAux ([⟨"y.png", .ok ("\x7b\"vendor_name\": \"Uber\"\x7d".toList)⟩] : List UploadedFile).length.succ 1
            [⟨"y.png", .ok ("\x7b\"vendor_name\": \"Uber\"\x7d".toList)⟩]).completed
      ∧ (runBatch [⟨"x.png", .error ()⟩, ⟨"y.png", .ok ("\x7b\"vendor_name\": \"Uber\"\x7d".toList)⟩]).progress
        = 0 :: ((0 + 1 : ℕ) : ℚ) / ((([⟨"y.png", .ok ("\x7b\"vendor_name\": \"Uber\"\x7d".toList)⟩] : List UploadedFile).length + 1 : ℕ) : ℚ)
          :: (runBatchAux ([⟨"y.png", .ok ("\x7b\"vendor_name\": \"Uber\"\x7d".toList)⟩] : List UploadedFile).length.succ 1
              [⟨"y.png", .ok ("\x7b\"vendor_name\": \"Uber\"\x7d".toList)⟩]).progress
      ∧ extract_invoice_data (Except.error ()) = none) :=
  ⟨rfl, c5_failure_continues ⟨"x.png", .error ()⟩ _ rfl⟩

/-! ## Claim C6 : fence-stripping invariance -/

/-- C6: for every valid JSON text `t` containing no fence marker, normalizing
`t` wrapped in markdown code fences (with the `json` language tag) yields the
same result as normalizing `t` itself. -/
theorem c6_normalize_wrap_fence (t : List Char) (hfence : ¬ fencePat <:+: t)
    (_hvalid : (json_loads t).isSome = true) :
    normalize (wrapFence t) = normalize t := by
  unfold normalize
  rw [cleanText_wrapFence hfence]

/-- C6, witness for `c6_normalize_wrap_fence` at the JSON text `{"a": 1}`. -/
theorem c6_witness :
    (¬ fencePat <:+: ("\x7b\"a\": 1\x7d".toList))
    ∧ (json_loads ("\x7b\"a\": 1\x7d".toList)).isSome = true
    ∧ normalize (wrapFence ("\x7b\"a\": 1\x7d".toList)) = normalize ("\x7b\"a\": 1\x7d".toList) :=
  ⟨by decide, rfl, c6_normalize_wrap_fence _ (by decide) rfl⟩

/-! ## Claim C10 : non-object JSON replies crash the batch -/

/-- C10: a reply that parses as valid JSON but is not a JSON object (here the
array `[1]`) is accepted by the normalizer with no shape check; the subsequent
`data['source_file'] = file.name` raises an uncaught `TypeError`, the run
aborts, and the remaining image — which would itself have produced a record —
is never processed. -/
theorem c10_nonobject_crash :
    extract_invoice_data (.ok ("[1]".toList)) = some (.arr [.num 1])
    ∧ isObj (.arr [.num 1]) = false
    ∧ stepFile ⟨"a.png", .ok ("[1]".toList)⟩ = .crash
    ∧ runBatch [⟨"a.png", .ok ("[1]".toList)⟩,
        ⟨"b.png", .ok ("\x7b\"vendor_name\": \"Uber\"\x7d".toList)⟩]
      = ⟨[], [0], false⟩
    ∧ stepFile ⟨"b.png", .ok ("\x7b\"vendor_name\": \"Uber\"\x7d".toList)⟩
      = .append (.obj [("vendor_name", .str "Uber"), ("source_file", .str "b.png")]) :=
  ⟨rfl, rfl, rfl, rfl, rfl⟩

/-! ## Claim C4 : batch with one failing image -/

theorem progress_chain (m : ℕ) {n : ℚ} (hn : 0 < n) :
    List.Chain' (· ≤ ·) ((List.range m).map (fun k => ((k + 1 : ℕ) : ℚ) / n)) := by
  rw [List.chain'_map]
  cases m with
  | zero => simp
  | succ m' =>
    rw [List.chain'_range_succ]
    intro k _
    exact (div_le_div_iff_of_pos_right hn).mpr (by exact_mod_cast Nat.le_succ (k + 1))

/-- C4: in a batch where exactly one image's extraction fails and every other
image successfully contributes a record, the run completes, the table holds
exactly N − 1 records in upload order, the reported progress after the k-th
image is k / N, the progress sequence is monotone, and it ends at 1. -/
theorem c4_one_failure_batch (A B : List UploadedFile) (bad : UploadedFile)
    (hbad : extract_invoice_data bad.reply = none)
    (hgood : ∀ f ∈ A ++ B, ∃ j, stepFile f = .append j) :
    (runBatch (A ++ bad :: B)).records = (A ++ B).filterMap appendedOf
    ∧ (runBatch (A ++ bad :: B)).records.length = A.length + B.length
    ∧ (runBatch (A ++ bad :: B)).completed = true
    ∧ (runBatch (A ++ bad :: B)).progress
      = 0 :: (List.range (A.length + B.length + 1)).map
          (fun k => ((k + 1 : ℕ) : ℚ) / ((A.length + B.length + 1 : ℕ) : ℚ))
    ∧ (runBatch (A ++ bad :: B)).progress.Chain' (· ≤ ·)
    ∧ (runBatch (A ++ bad :: B)).progress.getLast? = some 1 := by
  have hnocrash : ∀ f ∈ A ++ bad :: B, stepFile f ≠ .crash := by
    intro f hf
    rcases List.mem_append.mp hf with h | h
    · obtain ⟨j, hj⟩ := hgood f (List.mem_append.mpr (.inl h))
      rw [hj]; simp
    · rcases List.mem_cons.mp h with h | h
      · subst h
        rw [stepFile_skip_of_extract_none hbad]; simp
      · obtain ⟨j, hj⟩ := hgood f (List.mem_append.mpr (.inr h))
        rw [hj]; simp
  have hlen : (A ++ bad :: B).length = A.length + B.length + 1 := by
    simp [List.length_append]
    omega
  have hrun := runBatchAux_eq_of_no_crash (A ++ bad :: B).length (A ++ bad :: B) 0 hnocrash
  have hrec : (runBatch (A ++ bad :: B)).records = (A ++ B).filterMap appendedOf := by
    show (runBatchAux (A ++ bad :: B).length 0 (A ++ bad :: B)).records = _
    rw [hrun]
    show (A ++ bad :: B).filterMap appendedOf = _
    rw [List.filterMap_append, List.filterMap_append, List.filterMap_cons,
      appendedOf_eq_none_of_skip (stepFile_skip_of_extract_none hbad)]
  have hform : (List.range (A ++ bad :: B).length).map
        (fun k => ((0 + k + 1 : ℕ) : ℚ) / (((A ++ bad :: B).length : ℕ) : ℚ))
      = (List.range (A.length + B.length + 1)).map
        (fun k => ((k + 1 : ℕ) : ℚ) / ((A.length + B.length + 1 : ℕ) : ℚ)) := by
    rw [hlen]
    exact List.map_congr_left (fun k _ => by rw [Nat.zero_add])
  have hprog : (runBatch (A ++ bad :: B)).progress
      = 0 :: (List.range (A.length + B.length + 1)).map
        (fun k => ((k + 1 : ℕ) : ℚ) / ((A.length + B.length + 1 : ℕ) : ℚ)) := by
    show 0 :: (runBatchAux (A ++ bad :: B).length 0 (A ++ bad :: B)).progress = _
    rw [hrun]
    show 0 :: (List.range (A ++ bad :: B).length).map
      (fun k => ((0 + k + 1 : ℕ) : ℚ) / (((A ++ bad :: B).length : ℕ) : ℚ)) = _
    rw [hform]
  have hcomp : (runBatch (A ++ bad :: B)).completed = true := by
    show (runBatchAux (A ++ bad :: B).length 0 (A ++ bad :: B)).completed = true
    rw [hrun]
  have hpos : (0 : ℚ) < ((A.length + B.length + 1 : ℕ) : ℚ) := by
    exact_mod_cast Nat.succ_pos (A.length + B.length)
  refine ⟨hrec, ?_, hcomp, hprog, ?_, ?_⟩
  · rw [hrec, length_filterMap_appendedOf_of_all_append (A ++ B) hgood,
      List.length_append]
  · rw [hprog, List.chain'_cons']
    refine ⟨?_, progress_chain _ hpos⟩
    intro y hy
    rcases hh : ((List.range (A.length + B.length + 1)).map
        (fun k => ((k + 1 : ℕ) : ℚ) / ((A.length + B.length + 1 : ℕ) : ℚ))).head? with - | z
    · rw [hh] at hy; exact absurd hy (by simp)
    · rw [hh] at hy
      rw [Option.mem_some_iff] at hy
      subst hy
      have : z ∈ (List.range (A.length + B.length + 1)).map
          (fun k => ((k + 1 : ℕ) : ℚ) / ((A.length + B.length + 1 : ℕ) : ℚ)) :=
        List.mem_of_mem_head? hh
      obtain ⟨k, -, hk⟩ := List.mem_map.mp this
      rw [← hk]
      positivity
  · rw [hprog, List.range_succ, List.map_append, List.map_cons, List.map_nil,
      ← List.cons_append, List.getLast?_concat]
    congr 1
    exact div_self (by exact_mod_cast Nat.succ_ne_zero (A.length + B.length))

/-- C4, witness for `c4_one_failure_batch`: two images, the second failing. -/
theorem c4_witness :
    extract_invoice_data ((⟨"bad.png", .error ()⟩ : UploadedFile)).reply = none
    ∧ (∀ f ∈ ([⟨"good.png", .ok ("\x7b\"vendor_name\": \"Uber\"\x7d".toList)⟩] : List UploadedFile) ++ [],
        ∃ j, stepFile f = .append j)
    ∧ (runBatch ([⟨"good.png", .ok ("\x7b\"vendor_name\": \"Uber\"\x7d".toList)⟩] ++ ⟨"bad.png", .error ()⟩ :: [])).records.length
      = ([⟨"good.png", .ok ("\x7b\"vendor_name\": \"Uber\"\x7d".toList)⟩] : List UploadedFile).length
        + ([] : List UploadedFile).length
    ∧ (runBatch ([⟨"good.png", .ok ("\x7b\"vendor_name\": \"Uber\"\x7d".toList)⟩] ++ ⟨"bad.png", .error ()⟩ :: [])).completed = true
    ∧ (runBatch ([⟨"good.png", .ok ("\x7b\"vendor_name\": \"Uber\"\x7d".toList)⟩] ++ ⟨"bad.png", .error ()⟩ :: [])).progress.getLast? = some 1 := by
  have hgood : ∀ f ∈ ([⟨"good.png", .ok ("\x7b\"vendor_name\": \"Uber\"\x7d".toList)⟩] : List UploadedFile) ++ [],
      ∃ j, stepFile f = .append j := by
    intro f hf
    rcases List.mem_append.mp hf with h | h
    · rw [List.mem_singleton] at h
      subst h
      exact ⟨.obj [("vendor_name", .str "Uber"), ("source_file", .str "good.png")], rfl⟩
    · exact absurd h (List.not_mem_nil f)
  have hmain := c4_one_failure_batch
    [⟨"good.png", .ok ("\x7b\"vendor_name\": \"Uber\"\x7d".toList)⟩] []
    ⟨"bad.png", .error ()⟩ rfl hgood
  exact ⟨rfl, hgood, hmain.2.1, hmain.2.2.1, hmain.2.2.2.2.2⟩

/-! ## Claim C7 : modal category tie-breaking -/

/-- C7, counterexample: on a two-record table whose categories
`"Transportation"` and `"F&B"` tie at one occurrence each,
`df['category'].mode()[0]` reports `"F&B"` — the lexicographically smallest
mode (pandas sorts the mode series) — not the first-encountered value
`"Transportation"` required by the claim. -/
theorem c7_counterexample :
    categoryCells [Json.obj [("category", .str "Transportation")],
        Json.obj [("category", .str "F&B")]]
      = ["Transportation", "F&B"]
    ∧ topCat ["Transportation", "F&B"] = some "F&B"
    ∧ specTopCat ["Transportation", "F&B"] = some "Transportation"
    ∧ ("F&B" : String) ≠ "Transportation" :=
  ⟨rfl, by decide, by decide, by decide⟩

/-- C7, amended: on a non-empty category column the reported top category is
a most frequent value, but ties are broken by sort order: the reported value
is the lexicographically smallest among all tied modes, not the
first-encountered one. -/
theorem c7_mode_lexicographic (cats : List String) (h : cats ≠ []) :
    ∃ v, topCat cats = some v ∧ v ∈ cats ∧ cats.count v = maxCatCount cats
      ∧ ∀ w ∈ cats, cats.count w = maxCatCount cats → strLe v w = true := by
  obtain ⟨c, hc, hceq⟩ := maxCatCount_attained h
  have hcmem : c ∈ pandasMode cats := mem_pandasMode.mpr ⟨hc, hceq.symm⟩
  cases hm : pandasMode cats with
  | nil => rw [hm] at hcmem; exact absurd hcmem (List.not_mem_nil c)
  | cons v vs =>
    have hvmem : v ∈ pandasMode cats := by
      rw [hm]; exact List.mem_cons_self v vs
    refine ⟨v, ?_, (mem_pandasMode.mp hvmem).1, (mem_pandasMode.mp hvmem).2, ?_⟩
    · unfold topCat; rw [hm]; rfl
    · intro w hw hweq
      have hwmem : w ∈ pandasMode cats := mem_pandasMode.mpr ⟨hw, hweq⟩
      rw [hm] at hwmem
      rcases List.mem_cons.mp hwmem with hww | hww
      · rw [hww]; exact strLe_refl v
      · have hsorted := pandasMode_sorted cats
        rw [hm] at hsorted
        exact List.rel_of_sorted_cons hsorted w hww

/-- C7, witness for `c7_mode_lexicographic` on the tied two-category table. -/
theorem c7_witness :
    (["Transportation", "F&B"] : List String) ≠ []
    ∧ ∃ v, topCat ["Transportation", "F&B"] = some v
      ∧ v ∈ ["Transportation", "F&B"]
      ∧ (["Transportation", "F&B"] : List String).count v
        = maxCatCount ["Transportation", "F&B"]
      ∧ ∀ w ∈ (["Transportation", "F&B"] : List String),
          (["Transportation", "F&B"] : List String).count w
            = maxCatCount ["Transportation", "F&B"] → strLe v w = true :=
  ⟨by simp, c7_mode_lexicographic _ (by simp)⟩

/-! ## Claim C8 : export columns, rows and sheet name -/

/-- C8, counterexample: the exported column order is not fixed — it follows
the first-appearance order of the record keys.  A record whose keys arrive
with `vendor_name` before `date` exports with that permuted column order,
not the fixed order the claim states (the sheet name is still `Invoices`). -/
theorem c8_counterexample :
    exportSheet [[("vendor_name", Json.str "X"), ("date", Json.str "2024-03-01"),
        ("category", Json.str "F&B"), ("total_amount", Json.num 5),
        ("currency", Json.str "USD"), ("invoice_number", Json.null),
        ("source_file", Json.str "r.png")]]
      = .ok ("Invoices",
          ["vendor_name", "date", "category", "total_amount", "currency",
            "invoice_number", "source_file"],
          [[Json.str "X", Json.str "2024-03-01", Json.str "F&B", Json.num 5,
            Json.str "USD", Json.null, Json.str "r.png"]])
    ∧ ["vendor_name", "date", "category", "total_amount", "currency",
        "invoice_number", "source_file"] ≠ claimedExportColumns :=
  ⟨rfl, by decide⟩

/-- C8, amended: the export writes every row of the table under the fixed
sheet name `Invoices`, deterministically, but the column order is not fixed
by the code: it is the first-appearance order of the record keys.  In the
direction the pipeline actually produces — every record carrying its keys in
the claimed order `date, vendor_name, category, total_amount, currency,
invoice_number, source_file` — the exported columns are exactly that order.
The inner `recs ≠ []` guard mirrors the `if all_extracted_data:` gate of
`app.py`: the export block only ever runs on a non-empty table. -/
theorem c8_export_shape (recs : List (List (String × Json)))
    (h : ∀ r ∈ recs, r.map Prod.fst = claimedExportColumns) :
    (exportRows claimedExportColumns recs).length = recs.length
    ∧ (recs ≠ [] →
        exportSheet recs = .ok ("Invoices", claimedExportColumns,
          recs.map (fun r => claimedExportColumns.map (cellOf r)))) := by
  constructor
  · unfold exportRows
    rw [List.length_map]
  · intro hne
    have hcols := dfColumns_of_uniform h hne
    simp only [exportSheet, hcols]
    rw [if_pos (by decide)]
    rfl

/-- C8, witness for `c8_export_shape` at a single record with the keys in the
claimed order. -/
theorem c8_witness :
    (∀ r ∈ [[("date", Json.str "2024-03-01"), ("vendor_name", Json.str "Uber"),
        ("category", Json.str "F&B"), ("total_amount", Json.num 45000),
        ("currency", Json.str "IDR"), ("invoice_number", Json.null),
        ("source_file", Json.str "g.png")]],
      r.map Prod.fst = claimedExportColumns)
    ∧ (exportRows claimedExportColumns
        [[("date", Json.str "2024-03-01"), ("vendor_name", Json.str "Uber"),
          ("category", Json.str "F&B"), ("total_amount", Json.num 45000),
          ("currency", Json.str "IDR"), ("invoice_number", Json.null),
          ("source_file", Json.str "g.png")]]).length
      = ([[("date", Json.str "2024-03-01"), ("vendor_name", Json.str "Uber"),
          ("category", Json.str "F&B"), ("total_amount", Json.num 45000),
          ("currency", Json.str "IDR"), ("invoice_number", Json.null),
          ("source_file", Json.str "g.png")]] : List (List (String × Json))).length
    ∧ exportSheet [[("date", Json.str "2024-03-01"), ("vendor_name", Json.str "Uber"),
        ("category", Json.str "F&B"), ("total_amount", Json.num 45000),
        ("currency", Json.str "IDR"), ("invoice_number", Json.null),
        ("source_file", Json.str "g.png")]]
      = .ok ("Invoices", claimedExportColumns,
          [[("date", Json.str "2024-03-01"), ("vendor_name", Json.str "Uber"),
            ("category", Json.str "F&B"), ("total_amount", Json.num 45000),
            ("currency", Json.str "IDR"), ("invoice_number", Json.null),
            ("source_file", Json.str "g.png")]].map
            (fun r => claimedExportColumns.map (cellOf r))) := by
  have hkeys : ∀ r ∈ [[("date", Json.str "2024-03-01"), ("vendor_name", Json.str "Uber"),
      ("category", Json.str "F&B"), ("total_amount", Json.num 45000),
      ("currency", Json.str "IDR"), ("invoice_number", Json.null),
      ("source_file", Json.str "g.png")]],
      r.map Prod.fst = claimedExportColumns := by
    intro r hr
    rw [List.mem_singleton] at hr
    subst hr
    rfl
  have hmain := c8_export_shape _ hkeys
  exact ⟨hkeys, hmain.1, hmain.2 (by simp)⟩

/-! ## Claim C9 : at most one record per image, in order, with source_file -/

theorem appendedOf_some_inv {f : UploadedFile} {j : Json}
    (h : appendedOf f = some j) : stepFile f = .append j := by
  unfold appendedOf at h
  cases hs : stepFile f with
  | skip => rw [hs] at h; exact Option.noConfusion h
  | crash => rw [hs] at h; exact Option.noConfusion h
  | append j' =>
    rw [hs] at h
    injection h with h'
    rw [h']

/-- C9: every uploaded image contributes at most one record: the final table
content is the per-file contributions of a prefix of the batch (the whole
batch when nothing crashed), so its length never exceeds the number of
uploaded images, the records appear in upload order, and every stored record
carries `source_file` set by the pipeline to its file's name — overwriting
any `source_file` key the model itself returned. -/
theorem c9_table_invariants (files : List UploadedFile) :
    (∃ k, (runBatch files).records = (files.take k).filterMap appendedOf)
    ∧ (runBatch files).records.length ≤ files.length
    ∧ ∀ j ∈ (runBatch files).records, ∃ f ∈ files, ∃ fs,
        extract_invoice_data f.reply = some (.obj fs)
        ∧ j = .obj (dictInsert fs "source_file" (.str f.name))
        ∧ lookupJ (dictInsert fs "source_file" (.str f.name)) "source_file"
          = some (.str f.name) := by
  obtain ⟨k, hk⟩ := runBatchAux_records_take files.length files 0
  have hr : (runBatch files).records = (runBatchAux files.length 0 files).records := rfl
  refine ⟨⟨k, by rw [hr, hk]⟩, ?_, ?_⟩
  · rw [hr, hk]
    calc ((files.take k).filterMap appendedOf).length
        ≤ (files.take k).length := List.length_filterMap_le _ _
      _ ≤ files.length := by
          rw [List.length_take]
          exact min_le_right _ _
  · intro j hj
    rw [hr, hk] at hj
    obtain ⟨f, hf, hfa⟩ := List.mem_filterMap.mp hj
    have hfmem : f ∈ files := List.take_subset k files hf
    obtain ⟨fs, hfs, -, hjeq⟩ := stepFile_append_inv (appendedOf_some_inv hfa)
    exact ⟨f, hfmem, fs, hfs, hjeq, lookupJ_dictInsert_self fs _ _⟩

/-- C9, witness: `c9_table_invariants` applied to a concrete two-image batch
(one success, one remote failure) — the table never exceeds the batch size. -/
theorem c9_witness :
    (runBatch [⟨"p.png", .ok ("\x7b\"vendor_name\": \"AWS\"\x7d".toList)⟩,
        ⟨"q.png", .error ()⟩]).records.length
      ≤ ([⟨"p.png", .ok ("\x7b\"vendor_name\": \"AWS\"\x7d".toList)⟩,
          ⟨"q.png", .error ()⟩] : List UploadedFile).length :=
  (c9_table_invariants _).2.1

end InvoiceIntel
